import Mathlib

/-!
# Verification of the haystack-meilisearch bridge

Shallow embedding of `src/haystack_meilisearch.py` (the `MeiliSearchBackend`
class) and proofs about its behaviour.

Strings manipulated by the code are modelled as `List Char` (`Str`).  The
external Meilisearch client is modelled by recording the store operations each
backend method issues (`StoreOp`), and by passing the store's responses (the
index listing for `clear`, the hit list for `search`) as explicit inputs.
-/

namespace HaystackMeili

/-- Strings, embedded as lists of characters. -/
abbrev Str := List Char

/-- Python's `s.replace(".", "_")` (src lines 38, 83, 86): a single-character
to single-character replacement, i.e. a character map. -/
def replaceDots (s : Str) : Str :=
  s.map (fun c => if c = '.' then '_' else c)

/-- `MeiliSearchBackend._index_name` (src line 38): the model's content type
with every dot replaced by an underscore. -/
def indexName (contentType : Str) : Str :=
  replaceDots contentType

/-- Python's `s.split(sep)` for a single-character separator: splits on every
occurrence, keeping empty parts, and returns `[s]` when the separator does not
occur (so `"".split("_") == [""]`). -/
def splitSep (sep : Char) : Str → List Str
  | [] => [[]]
  | c :: rest =>
    if c = sep then [] :: splitSep sep rest
    else
      match splitSep sep rest with
      | h :: t => (c :: h) :: t
      | [] => [[c]]

/-- The decoding step of `MeiliSearchBackend.search` (src line 129):
`app_label, model_name, pk = match["id"].split("_")`.  Tuple unpacking
succeeds exactly when the split yields three parts; otherwise Python raises
`ValueError`, modelled by `none`. -/
def decode (docId : Str) : Option (Str × Str × Str) :=
  match splitSep '_' docId with
  | [a, m, p] => some (a, m, p)
  | _ => none

/-- Modelled from the spec: the framework collaborator `get_identifier` /
`full_prepare` (haystack, not part of this repository) produces the dotted
legacy identifier `"{namespace}.{kind}.{primary_key}"` that `update` receives
in the document's `id` field. -/
def dottedId (n k p : Str) : Str :=
  n ++ '.' :: (k ++ '.' :: p)

/-- Encoding a (namespace, kind, primaryKey) triple into a DocumentId: the
framework's dotted identifier with dots replaced by underscores, as done by
`update` on the `id` field (src line 86). -/
def encode (n k p : Str) : Str :=
  replaceDots (dottedId n k p)

/-- A prepared document: a field-name → value mapping (Python dict). -/
abbrev Doc := List (Str × Str)

/-- The `"id"` field name. -/
def idKey : Str := ['i', 'd']

/-- Python dict read `d[k]`: `none` models a `KeyError`. -/
def Doc.find (d : Doc) (k : Str) : Option Str :=
  (d.find? (fun kv => kv.1 = k)).map (·.2)

/-- Python dict write `d[k] = v` for a key already present. -/
def Doc.set (d : Doc) (k v : Str) : Doc :=
  d.map (fun kv => if kv.1 = k then (kv.1, v) else kv)

/-- An operation issued against the Meilisearch client. -/
inductive StoreOp
  | addDocuments (indexUid : Str) (docs : List Doc) (primaryKey : Str)
  | updateSearchableAttributes (indexUid : Str) (attrs : List Str)
  | deleteIndex (uid : Str)
  | deleteDocument (indexUid : Str) (docId : Str)
  | singleSearch (indexUid : Str) (query : Str)
  | multiSearch (queries : List (Str × Str))
deriving DecidableEq

/-- `MeiliSearchBackend.clear` (src lines 40-57).  `storeIndexes` is the list
of index uids returned by `client.get_indexes()["results"]`; `models` the
content types of the models argument (`[]` models `None`).  With no models
every listed index is deleted; otherwise one delete per given model. -/
def clear (storeIndexes : List Str) (models : List Str) (commit : Bool) :
    List StoreOp :=
  if models.isEmpty then
    storeIndexes.map StoreOp.deleteIndex
  else
    models.map (fun m => StoreOp.deleteIndex (indexName m))

/-- `MeiliSearchBackend.remove` (src lines 59-71): one `delete_document` call
against the object's index, keyed by its identifier. -/
def remove (contentType : Str) (identifier : Str) (commit : Bool) :
    List StoreOp :=
  [StoreOp.deleteDocument (indexName contentType) identifier]

/-- The document loop of `MeiliSearchBackend.update` (src lines 84-87): each
prepared document has its `id` field read (a `KeyError` aborts the whole call,
modelled by `Except.error` carrying the offending document) and rewritten with
dots replaced by underscores. -/
def prepareDocs : List Doc → Except Doc (List Doc)
  | [] => .ok []
  | d :: rest =>
    match Doc.find d idKey with
    | none => .error d
    | some v =>
      match prepareDocs rest with
      | .error e => .error e
      | .ok ds => .ok (Doc.set d idKey (replaceDots v) :: ds)

/-- `MeiliSearchBackend.update` (src lines 73-96): prepares every document,
then issues a single `add_documents` call with `primary_key="id"` followed by
one `update_searchable_attributes` call with the index's field names.  A
document without an `id` field aborts the call before anything is sent. -/
def update (contentType : Str) (fields : List Str) (docs : List Doc)
    (commit : Bool) : Except Doc (List StoreOp) :=
  match prepareDocs docs with
  | .error d => .error d
  | .ok ds =>
      .ok [StoreOp.addDocuments (indexName contentType) ds idKey,
           StoreOp.updateSearchableAttributes (indexName contentType) fields]

/-- A hit returned by the store: the stored document's id plus whatever
relevance score the store reported for it. -/
structure Hit where
  id : Str
  score : Int
deriving DecidableEq

/-- A framework-level result record (`SearchResult(app_label, model_name, pk,
score)`, src line 131). -/
structure SearchResult where
  app_label : Str
  model_name : Str
  pk : Str
  score : Int
deriving DecidableEq

/-- The query operation issued by `MeiliSearchBackend.search` (src lines
101-125): empty `models` defaults to the framework's registered models; one
model gives a single-index search, otherwise one `multi_search` call with an
`(indexUid, query)` pair per model. -/
def searchOp (q : Str) (models registered : List Str) : StoreOp :=
  let ms := if models.isEmpty then registered else models
  if ms.length = 1 then
    StoreOp.singleSearch (indexName (ms.headD [])) q
  else
    StoreOp.multiSearch (ms.map (fun m => (indexName m, q)))

/-- The result loop of `MeiliSearchBackend.search` (src lines 127-132): each
hit's id is decoded by tuple-unpacking its underscore split; a failure raises
(`Except.error` carrying the offending id) and aborts the whole call; a
success appends a record with `score=0`. -/
def processHits : List Hit → Except Str (List SearchResult)
  | [] => .ok []
  | h :: rest =>
    match decode h.id with
    | none => .error h.id
    | some (a, m, p) =>
      match processHits rest with
      | .error e => .error e
      | .ok rs => .ok (⟨a, m, p, 0⟩ :: rs)

/-- `MeiliSearchBackend.search` (src lines 98-134): issues one query operation
against the store, then decodes the returned hits; on success the returned
`hits` count is the number of decoded records (src line 134). -/
def search (q : Str) (models registered : List Str) (hits : List Hit) :
    StoreOp × Except Str (List SearchResult × Nat) :=
  (searchOp q models registered,
   (processHits hits).map (fun rs => (rs, rs.length)))

/-- The number of `add_documents` calls in a trace. -/
def countAddDocs (ops : List StoreOp) : Nat :=
  (ops.filter (fun op =>
    match op with
    | .addDocuments _ _ _ => true
    | _ => false)).length

/-! ## Helper lemmas -/

theorem splitSep_ne_nil (sep : Char) (l : Str) : splitSep sep l ≠ [] := by
  induction l with
  | nil => simp [splitSep]
  | cons c rest ih =>
    rw [splitSep]
    by_cases h : c = sep
    · simp [h]
    · rw [if_neg h]
      cases hr : splitSep sep rest <;> simp

theorem length_splitSep (sep : Char) (l : Str) :
    (splitSep sep l).length = l.count sep + 1 := by
  induction l with
  | nil => simp [splitSep]
  | cons c rest ih =>
    rw [splitSep]
    by_cases h : c = sep
    · simp [h, List.count_cons, ih]
    · cases hr : splitSep sep rest with
      | nil => exact absurd hr (splitSep_ne_nil sep rest)
      | cons a t =>
        rw [if_neg h]
        rw [hr] at ih
        simp only [List.length_cons, List.count_cons] at *
        simp [h, ih]

theorem splitSep_of_not_mem (sep : Char) (l : Str) (h : sep ∉ l) :
    splitSep sep l = [l] := by
  induction l with
  | nil => rfl
  | cons c rest ih =>
    simp only [List.mem_cons, not_or] at h
    rw [splitSep, if_neg (fun e => h.1 e.symm), ih h.2]

theorem splitSep_append (sep : Char) (xs ys : Str) (h : sep ∉ xs) :
    splitSep sep (xs ++ sep :: ys) = xs :: splitSep sep ys := by
  induction xs with
  | nil => simp [splitSep]
  | cons c rest ih =>
    simp only [List.mem_cons, not_or] at h
    rw [List.cons_append, splitSep, if_neg (fun e => h.1 e.symm), ih h.2]

theorem decode_parts (a m p : Str) (ha : '_' ∉ a) (hm : '_' ∉ m)
    (hp : '_' ∉ p) : decode (a ++ '_' :: (m ++ '_' :: p)) = some (a, m, p) := by
  unfold decode
  rw [splitSep_append _ _ _ ha, splitSep_append _ _ _ hm,
    splitSep_of_not_mem _ _ hp]

theorem replaceDots_of_not_mem (l : Str) (h : '.' ∉ l) : replaceDots l = l := by
  induction l with
  | nil => rfl
  | cons c rest ih =>
    simp only [List.mem_cons, not_or] at h
    show (if c = '.' then '_' else c) :: replaceDots rest = c :: rest
    rw [if_neg (fun e => h.1 e.symm), ih h.2]

theorem replaceDots_dottedId (n k p : Str) :
    replaceDots (dottedId n k p) =
      replaceDots n ++ '_' :: (replaceDots k ++ '_' :: replaceDots p) := by
  simp [replaceDots, dottedId]

theorem prepareDocs_length (docs ds : List Doc)
    (h : prepareDocs docs = .ok ds) : ds.length = docs.length := by
  induction docs generalizing ds with
  | nil =>
    simp only [prepareDocs] at h
    cases h
    rfl
  | cons d rest ih =>
    unfold prepareDocs at h
    cases hf : Doc.find d idKey with
    | none => rw [hf] at h; cases h
    | some v =>
      rw [hf] at h
      cases hr : prepareDocs rest with
      | error e => rw [hr] at h; cases h
      | ok ds2 =>
        rw [hr] at h
        cases h
        simp [ih ds2 hr]

theorem prepareDocs_error (docs : List Doc)
    (h : ∃ d ∈ docs, Doc.find d idKey = none) :
    ∃ bad, bad ∈ docs ∧ Doc.find bad idKey = none ∧
      prepareDocs docs = .error bad := by
  induction docs with
  | nil => obtain ⟨d, hd, _⟩ := h; cases hd
  | cons d rest ih =>
    cases hf : Doc.find d idKey with
    | none => exact ⟨d, List.mem_cons_self d rest, hf, by rw [prepareDocs, hf]⟩
    | some v =>
      have hrest : ∃ d0 ∈ rest, Doc.find d0 idKey = none := by
        obtain ⟨d0, hd0, hn0⟩ := h
        rcases List.mem_cons.mp hd0 with he | hm
        · subst he; rw [hf] at hn0; cases hn0
        · exact ⟨d0, hm, hn0⟩
      obtain ⟨bad, hbm, hbn, hbe⟩ := ih hrest
      refine ⟨bad, List.mem_cons_of_mem d hbm, hbn, ?_⟩
      rw [prepareDocs, hf, hbe]

theorem processHits_score (hits : List Hit) (rs : List SearchResult)
    (h : processHits hits = .ok rs) : ∀ r ∈ rs, r.score = 0 := by
  induction hits generalizing rs with
  | nil =>
    simp only [processHits] at h
    cases h
    intro r hr
    cases hr
  | cons hh rest ih =>
    unfold processHits at h
    cases hd : decode hh.id with
    | none => rw [hd] at h; cases h
    | some t =>
      obtain ⟨a, m, p⟩ := t
      rw [hd] at h
      cases hr : processHits rest with
      | error e => rw [hr] at h; cases h
      | ok rs2 =>
        rw [hr] at h
        cases h
        intro r hrm
        rcases List.mem_cons.mp hrm with he | hm
        · subst he; rfl
        · exact ih rs2 hr r hm

theorem processHits_error (hits : List Hit)
    (h : ∃ hh ∈ hits, decode hh.id = none) :
    ∃ e, processHits hits = .error e := by
  induction hits with
  | nil => obtain ⟨hh, hm, _⟩ := h; cases hm
  | cons h0 rest ih =>
    cases hd : decode h0.id with
    | none => exact ⟨h0.id, by rw [processHits, hd]⟩
    | some t =>
      obtain ⟨a, m, p⟩ := t
      have hrest : ∃ hh ∈ rest, decode hh.id = none := by
        obtain ⟨hh, hm, hn⟩ := h
        rcases List.mem_cons.mp hm with he | hm2
        · subst he; rw [hd] at hn; cases hn
        · exact ⟨hh, hm2, hn⟩
      obtain ⟨e, he⟩ := ih hrest
      refine ⟨e, ?_⟩
      rw [processHits, hd, he]

theorem decode_isSome_iff (docId : Str) :
    (decode docId).isSome ↔ docId.count '_' = 2 := by
  have h1 := length_splitSep '_' docId
  have h0 := splitSep_ne_nil '_' docId
  unfold decode
  rcases hs : splitSep '_' docId with _ | ⟨a, _ | ⟨b, _ | ⟨c, _ | ⟨d, t⟩⟩⟩⟩ <;>
    rw [hs] at h1 <;> simp_all <;> omega

/-! ## Claims -/

/-- C1 (counterexample): the claim says decoding uses only the first two
underscores as boundaries, so `"a_b_1_2"` decodes to `("a","b","1_2")`.
In the code `split("_")` splits on every underscore and the three-way tuple
unpacking fails, so decoding `"a_b_1_2"` raises instead. -/
theorem C1_counterexample :
    decode ['a', '_', 'b', '_', '1', '_', '2'] = none ∧
      decode ['a', '_', 'b', '_', '1', '_', '2'] ≠
        some (['a'], ['b'], ['1', '_', '2']) := by
  constructor
  · rfl
  · intro h
    cases h

/-- C1 (amended): decoding splits on every underscore and succeeds exactly
when the id contains exactly two underscores (three parts result); it fails
both when fewer and when more than three parts result, so the primary key may
not contain underscores.  On `n_k_p` with underscore-free components it
returns `(n, k, p)`. -/
theorem C1_decode_exactly_three_parts (docId a m p : Str)
    (ha : '_' ∉ a) (hm : '_' ∉ m) (hp : '_' ∉ p) :
    ((decode docId).isSome ↔ docId.count '_' = 2) ∧
      decode (a ++ '_' :: (m ++ '_' :: p)) = some (a, m, p) :=
  ⟨decode_isSome_iff docId, decode_parts a m p ha hm hp⟩

theorem C1_decode_exactly_three_parts_witness :
    decode (['b', 'l', 'o', 'g'] ++ '_' :: (['p', 'o', 's', 't'] ++ '_' :: ['4', '2'])) =
      some (['b', 'l', 'o', 'g'], ['p', 'o', 's', 't'], ['4', '2']) :=
  (C1_decode_exactly_three_parts ['x'] ['b', 'l', 'o', 'g'] ['p', 'o', 's', 't']
    ['4', '2'] (by decide) (by decide) (by decide)).2

/-- C2 (counterexample): the claim says a hit with undecodable id (e.g.
`"malformed"`) is dropped and the query still succeeds with the remaining
hits.  In the code the failed tuple unpacking raises and the whole search
call fails: with hits `["a_b_1", "malformed"]` the result is an error, not a
one-record success. -/
theorem C2_counterexample :
    (search ['q'] [['a', '.', 'b']] []
        [⟨['a', '_', 'b', '_', '1'], 5⟩,
         ⟨['m', 'a', 'l', 'f', 'o', 'r', 'm', 'e', 'd'], 7⟩]).2 =
      Except.error ['m', 'a', 'l', 'f', 'o', 'r', 'm', 'e', 'd'] := by
  rfl

/-- C2 (amended): a hit whose document id fails to decode causes the entire
search call to fail with an error (the exception propagates); no hit is
dropped.  When the call does succeed, the returned `hits` count equals the
number of decoded records. -/
theorem C2_search_fails_on_bad_hit (q : Str) (models registered : List Str)
    (hits : List Hit) :
    ((∃ hh ∈ hits, decode hh.id = none) →
      ∃ e, (search q models registered hits).2 = Except.error e) ∧
    (∀ rs n, (search q models registered hits).2 = Except.ok (rs, n) →
      n = rs.length) := by
  constructor
  · intro h
    obtain ⟨e, he⟩ := processHits_error hits h
    exact ⟨e, by simp [search, Except.map, he]⟩
  · intro rs n h
    simp only [search, Except.map] at h
    cases hp : processHits hits with
    | error e => rw [hp] at h; cases h
    | ok rs2 =>
      rw [hp] at h
      cases h
      rfl

theorem C2_search_fails_on_bad_hit_witness :
    ∃ e, (search ['q'] [['a', '.', 'b']] []
        [⟨['m', 'a', 'l', 'f', 'o', 'r', 'm', 'e', 'd'], 7⟩]).2 =
      Except.error e :=
  (C2_search_fails_on_bad_hit ['q'] [['a', '.', 'b']] []
      [⟨['m', 'a', 'l', 'f', 'o', 'r', 'm', 'e', 'd'], 7⟩]).1
    ⟨⟨['m', 'a', 'l', 'f', 'o', 'r', 'm', 'e', 'd'], 7⟩, by decide, by decide⟩

/-- C3 (counterexample): the claim says a document whose mapping lacks an
`id` field is skipped and the rest of the batch is processed.  In the code
the `KeyError` from `document["id"]` propagates: with a good first document
and a bad second one, `update` fails outright and sends nothing. -/
theorem C3_counterexample :
    update ['a', '.', 'b'] [['t']]
        [[(idKey, ['x'])], [(['f'], ['y'])]] true =
      Except.error [(['f'], ['y'])] := by
  rfl

/-- C3 (amended): a document whose mapping lacks an `id` field causes the
entire `update` call to fail with an error carrying that document, before any
store call is issued; the batch is aborted, not continued. -/
theorem C3_update_aborts_on_missing_id (contentType : Str)
    (fields : List Str) (docs : List Doc) (commit : Bool)
    (h : ∃ d ∈ docs, Doc.find d idKey = none) :
    ∃ bad, bad ∈ docs ∧ Doc.find bad idKey = none ∧
      update contentType fields docs commit = Except.error bad := by
  obtain ⟨bad, hbm, hbn, hbe⟩ := prepareDocs_error docs h
  exact ⟨bad, hbm, hbn, by rw [update, hbe]⟩

theorem C3_update_aborts_on_missing_id_witness :
    ∃ bad, bad ∈ [[(idKey, (['x'] : Str))], [((['f'] : Str), (['y'] : Str))]] ∧
      Doc.find bad idKey = none ∧
      update ['a', '.', 'b'] [['t']]
          [[(idKey, ['x'])], [(['f'], ['y'])]] true =
        Except.error bad :=
  C3_update_aborts_on_missing_id ['a', '.', 'b'] [['t']]
    [[(idKey, ['x'])], [(['f'], ['y'])]] true
    ⟨[(['f'], ['y'])], by decide, by decide⟩

/-- C4 (counterexample): the claim says a batch of N documents with
N > chunkSize is sent in ceil(N/chunkSize) upsert calls.  The code never
chunks: with N = 2 documents and chunk size 1 it issues exactly 1
`add_documents` call, not ceil(2/1) = 2. -/
theorem C4_counterexample :
    (update ['a', '.', 'b'] [['t']]
        [[(idKey, ['1'])], [(idKey, ['2'])]] true).map countAddDocs =
      Except.ok 1 ∧ (2 + 1 - 1) / 1 = 2 ∧ (1 : Nat) ≠ 2 := by
  refine ⟨rfl, rfl, ?_⟩
  decide

/-- C4 (amended): `update` issues exactly one upsert call carrying all N
documents of the batch in a single request (no chunking), and that call
declares `"id"` as the primary-key field. -/
theorem C4_single_upsert_with_id_key (contentType : Str) (fields : List Str)
    (docs ds : List Doc) (commit : Bool) (ops : List StoreOp)
    (hp : prepareDocs docs = .ok ds)
    (hu : update contentType fields docs commit = .ok ops) :
    countAddDocs ops = 1 ∧
      ∀ ix dd pk, StoreOp.addDocuments ix dd pk ∈ ops →
        pk = idKey ∧ dd.length = docs.length := by
  rw [update, hp] at hu
  cases hu
  refine ⟨rfl, ?_⟩
  intro ix dd pk hmem
  rcases List.mem_cons.mp hmem with he | hm
  · cases he
    exact ⟨rfl, prepareDocs_length docs ds hp⟩
  · rcases List.mem_cons.mp hm with he2 | hm2
    · cases he2
    · cases hm2

theorem C4_single_upsert_with_id_key_witness :
    countAddDocs
        [StoreOp.addDocuments ['a', '_', 'b'] [[(idKey, ['1'])], [(idKey, ['2'])]] idKey,
         StoreOp.updateSearchableAttributes ['a', '_', 'b'] [['t']]] = 1 :=
  (C4_single_upsert_with_id_key ['a', '.', 'b'] [['t']]
    [[(idKey, ['1'])], [(idKey, ['2'])]] [[(idKey, ['1'])], [(idKey, ['2'])]]
    true _ (by rfl) (by rfl)).1

/-- C5: `clear` with a single model deletes exactly that model's index and
no other; `clear` with no models deletes every index listed by the store. -/
theorem C5_clear_frame (storeIndexes : List Str) (x : Str) (commit : Bool) :
    clear storeIndexes [x] commit = [StoreOp.deleteIndex (indexName x)] ∧
    (∀ u, StoreOp.deleteIndex u ∈ clear storeIndexes [x] commit →
      u = indexName x) ∧
    clear storeIndexes [] commit = storeIndexes.map StoreOp.deleteIndex := by
  refine ⟨rfl, ?_, rfl⟩
  intro u hu
  simp only [clear, List.isEmpty, List.map] at hu
  rcases List.mem_singleton.mp hu with he
  cases he
  rfl

theorem C5_clear_frame_witness :
    clear [['o', 't', 'h', 'e', 'r']] [['a', '.', 'b']] true =
      [StoreOp.deleteIndex ['a', '_', 'b']] :=
  (C5_clear_frame [['o', 't', 'h', 'e', 'r']] ['a', '.', 'b'] true).1

/-- C6: `search` with one candidate model issues exactly one single-index
query against that model's index; with two or more candidates it issues one
`multi_search` call carrying one `(indexUid, query)` pair per model. -/
theorem C6_search_routing (q : Str) (registered : List Str) (hits : List Hit)
    (x : Str) (ms : List Str) (h2 : 2 ≤ ms.length) :
    (search q [x] registered hits).1 = StoreOp.singleSearch (indexName x) q ∧
    (search q ms registered hits).1 =
      StoreOp.multiSearch (ms.map (fun m => (indexName m, q))) := by
  constructor
  · rfl
  · have hne : ms.isEmpty = false := by
      cases ms with
      | nil => simp at h2
      | cons a t => rfl
    have hlen : ms.length ≠ 1 := by omega
    simp [search, searchOp, hne, hlen]

theorem C6_search_routing_witness :
    (search ['q'] [['a', '.', 'b'], ['c', '.', 'd']] [] []).1 =
      StoreOp.multiSearch [(['a', '_', 'b'], ['q']), (['c', '_', 'd'], ['q'])] := by
  have h := (C6_search_routing ['q'] [] [] ['x']
    [['a', '.', 'b'], ['c', '.', 'd']] (by decide)).2
  simpa using h

/-- C7 (counterexample): the claim requires only underscore-free components,
but a primary key containing a dot (here `"1.2"`) is garbled by the encoding
(dots become underscores) and the round trip fails. -/
theorem C7_counterexample :
    ('_' ∉ (['a'] : Str)) ∧ ('_' ∉ (['b'] : Str)) ∧
      ('_' ∉ (['1', '.', '2'] : Str)) ∧
      decode (encode ['a'] ['b'] ['1', '.', '2']) = none := by
  refine ⟨by decide, by decide, by decide, ?_⟩
  rfl

/-- C7 (amended): for components containing neither the separator `'_'` nor
the legacy dot `'.'`, decoding the encoded DocumentId returns the original
triple: `decode (encode n k p) = (n, k, p)`. -/
theorem C7_decode_encode_roundtrip (n k p : Str)
    (hn1 : '_' ∉ n) (hn2 : '.' ∉ n) (hk1 : '_' ∉ k) (hk2 : '.' ∉ k)
    (hp1 : '_' ∉ p) (hp2 : '.' ∉ p) :
    decode (encode n k p) = some (n, k, p) := by
  rw [encode, replaceDots_dottedId, replaceDots_of_not_mem n hn2,
    replaceDots_of_not_mem k hk2, replaceDots_of_not_mem p hp2]
  exact decode_parts n k p hn1 hk1 hp1

theorem C7_decode_encode_roundtrip_witness :
    decode (encode ['b', 'l', 'o', 'g'] ['p', 'o', 's', 't'] ['4', '2']) =
      some (['b', 'l', 'o', 'g'], ['p', 'o', 's', 't'], ['4', '2']) :=
  C7_decode_encode_roundtrip ['b', 'l', 'o', 'g'] ['p', 'o', 's', 't'] ['4', '2']
    (by decide) (by decide) (by decide) (by decide) (by decide) (by decide)

/-- C8: `search` with an empty candidate model set behaves exactly as if
called with the full registered model set. -/
theorem C8_search_default_models (q : Str) (registered : List Str)
    (hits : List Hit) :
    search q [] registered hits = search q registered registered hits := by
  unfold search searchOp
  cases registered <;> rfl

/-- C9: the `commit` flag is accepted by `clear`, `remove` and `update` but
has no effect: runs differing only in `commit` issue the same store
operations and return the same result. -/
theorem C9_commit_no_effect (storeIndexes models : List Str)
    (contentType identifier : Str) (fields : List Str) (docs : List Doc) :
    clear storeIndexes models true = clear storeIndexes models false ∧
    remove contentType identifier true = remove contentType identifier false ∧
    update contentType fields docs true = update contentType fields docs false :=
  ⟨rfl, rfl, rfl⟩

/-- C10: every result record returned by a successful `search` carries
`score = 0`, whatever relevance scores the store reported in the hits. -/
theorem C10_score_always_zero (q : Str) (models registered : List Str)
    (hits : List Hit) (rs : List SearchResult) (n : Nat)
    (h : (search q models registered hits).2 = Except.ok (rs, n)) :
    ∀ r ∈ rs, r.score = 0 := by
  simp only [search, Except.map] at h
  cases hp : processHits hits with
  | error e => rw [hp] at h; cases h
  | ok rs2 =>
    rw [hp] at h
    cases h
    exact processHits_score hits _ hp

theorem C10_score_always_zero_witness :
    (⟨['a'], ['b'], ['1'], 0⟩ : SearchResult).score = 0 :=
  C10_score_always_zero ['q'] [['a', '.', 'b']] []
    [⟨['a', '_', 'b', '_', '1'], 5⟩] [⟨['a'], ['b'], ['1'], 0⟩] 1 (by rfl)
    ⟨['a'], ['b'], ['1'], 0⟩ (by simp)

end HaystackMeili
